import Mathlib

/-!
cetlib: a verification development.

Shallow embedding of parts of `cetlib` and theorems about them.

Conventions of the embedding:

* `std::string` is a Lean `String` (a sequence of characters, the NUL
  character `'\x00'` included: a `std::string` may hold it).
* a value of type `char const*` is represented by the characters that stand
  before its terminating NUL.
* a C++ function that may throw returns `Except E α`, the exception object
  being the `error` value.
-/

namespace cet

/-! ## `cetlib/PluginFactory.cc` -/

/-- The data members of `cet::PluginFactory` that `releaseVersion_` reads.
`releaseVersionFunc_` is a `std::function<std::string()>`: it is either empty
(`none`) or holds a callable. -/
structure PluginFactory where
  releaseVersionFunc_ : Option (Unit → String)
  releaseVersionString_ : String

/-- Embedding of `cet::PluginFactory::releaseVersion_` (PluginFactory.cc, lines 19-32). -/
def PluginFactory.releaseVersion_ (self : PluginFactory) : String :=
  match self.releaseVersionFunc_ with
  | some func => func ()
  | none =>
    if self.releaseVersionString_.isEmpty then "Unknown" else self.releaseVersionString_

/-! ## `cetlib/getenv.cc` -/

/-- The object thrown by `throw cet::exception(category) << ...`: the category
string given to the constructor and the text streamed into it. -/
structure exception where
  category : String
  message : String
deriving DecidableEq, Repr

/-- The characters a C function reads from `s.c_str()`: those standing before
the first NUL (the buffer of a `std::string` ends in a NUL, so a string
without an embedded NUL is read whole). -/
def c_str (s : String) : String :=
  ⟨s.data.takeWhile (fun c => c != '\x00')⟩

/-- Embedding of `cet::getenv` (getenv.cc, lines 14-22). The process
environment is the parameter `std_getenv`: the answer of `std::getenv` to
each C string, `none` for the null pointer. -/
def getenv (std_getenv : String → Option String) (name : String) : Except exception String :=
  match std_getenv (c_str name) with
  | none =>
    .error ⟨"getenv", "Can't find an environment variable named \"" ++ name ++ "\""⟩
  | some p => .ok p

/-- An environment that defines the one variable `A`, with the value `1`. -/
def getenv_env_A (name : String) : Option String :=
  if name = "A" then some "1" else none

end cet

/-! ## `cetlib/Ntuple/Exception.cc` -/

namespace sqlite

namespace errors

/-- The declaration of `enum ErrorCodes` is in a header that is not part of
the sources at hand, so the integer value of each enumerator is a field of
this record. A value of the enumeration type is an integer (`Int`). -/
structure ErrorCodes where
  LogicError : Int
  SQLExecutionError : Int
  OtherError : Int
  Unknown : Int
deriving DecidableEq, Repr

/-- The case labels of one `switch` are pairwise different (a program with
two equal labels is rejected by the compiler). -/
def ErrorCodes.Distinct (E : ErrorCodes) : Prop :=
  [E.LogicError, E.SQLExecutionError, E.OtherError, E.Unknown].Nodup

instance (E : ErrorCodes) : Decidable E.Distinct := by
  unfold ErrorCodes.Distinct; infer_instance

/-- The integer values of the four enumerators. -/
def ErrorCodes.defined (E : ErrorCodes) : List Int :=
  [E.LogicError, E.SQLExecutionError, E.OtherError, E.Unknown]

/-- The enumeration with the values a declaration without initialisers gives. -/
def ErrorCodes.sequential : ErrorCodes := ⟨0, 1, 2, 3⟩

end errors

/-- The object thrown by `throw Exception(code) << ...`: the error code given
to the constructor and the text streamed into it. -/
structure Exception where
  category : Int
  message : String
deriving DecidableEq, Repr

/-- The `int` that an enumeration value becomes by integral promotion, `int`
having 32 bits in two's complement: a value in the range of `int` is kept,
any other is reduced modulo `2^32` into that range. -/
def int_promotion (code : Int) : Int :=
  (code + 2 ^ 31) % 2 ^ 32 - 2 ^ 31

/-- Embedding of `ExceptionDetail::translate` (Ntuple/Exception.cc, lines 5-21).
The `switch` has no `default:` label, so a value equal to no label falls out
of it and reaches the `throw`; streaming an unscoped enumeration value prints
the `int` it is promoted to. -/
def ExceptionDetail.translate (E : errors.ErrorCodes) (code : Int) : Except Exception String :=
  if code = E.LogicError then .ok "LogicError"
  else if code = E.SQLExecutionError then .ok "SQLExecutionError"
  else if code = E.OtherError then .ok "OtherError"
  else if code = E.Unknown then .ok "Unknown"
  else .error ⟨E.LogicError,
    "Internal error: missing string translation for error "
      ++ toString (int_promotion code)
      ++ " which was not caught at compile time!\n"⟩

end sqlite

/-! ## `cetlib/sqlite/helpers.cc` -/

namespace cet
namespace sqlite

/-- The class `std::isspace` of the "C" locale, which is what `\s` matches in
a `std::regex` over `char`. -/
def isspace (c : Char) : Bool :=
  c == ' ' || c == '\t' || c == '\n' || c == '\x0b' || c == '\x0c' || c == '\r'

/-- The loop of `std::regex_replace(s, r, fmt)` for a regular expression
that matches no empty string: `matchLen l` is the length of the match of `r`
that starts at the head of `l` (`0` when there is none). Scanning from the
left, a match is replaced by `fmt` and its characters are skipped (`skip`
counts those still to be skipped); a character that starts no match is
copied. -/
def regex_replace_go (matchLen : List Char → Nat) (fmt : List Char) :
    Nat → List Char → List Char
  | _, [] => []
  | skip + 1, _ :: cs => regex_replace_go matchLen fmt skip cs
  | 0, c :: cs =>
    match matchLen (c :: cs) with
    | 0 => c :: regex_replace_go matchLen fmt 0 cs
    | n + 1 => fmt ++ regex_replace_go matchLen fmt n cs

/-- The match of the regular expression `\s+` at the head of `l`: the longest
run of white space (the quantifier is greedy). -/
def matchLen_spaces (l : List Char) : Nat :=
  (l.takeWhile isspace).length

/-- The match of the regular expression `", "` at the head of `l`. -/
def matchLen_comma_space : List Char → Nat
  | ',' :: ' ' :: _ => 2
  | _ => 0

/-- Embedding of `normalize` (helpers.cc, lines 15-28). -/
def normalize (to_replace : String) : String :=
  -- Replace multiple spaces with 1 space.
  let to_replace1 := regex_replace_go matchLen_spaces [' '] 0 to_replace.data
  -- Ensure no spaces after commas
  let to_replace2 := regex_replace_go matchLen_comma_space [','] 0 to_replace1
  ⟨to_replace2⟩

/-- The command `cmd` that `hasTableWithSchema` builds (helpers.cc, lines 41-43). -/
def hasTableWithSchema_cmd (name : String) : String :=
  "select sql from sqlite_master where type=\"table\" and name=\"" ++ name ++ "\""

/-- Embedding of `cet::sqlite::hasTableWithSchema` (helpers.cc, lines 38-72).
The data base is the parameter `query`: the rows (one DDL string each) that
`query<std::string>(db, cmd)` yields for the command `cmd`; `res.empty()` is
the emptiness of the rows, and `res.data[0]` is read only where there is
exactly one row. The exception class is `sqlite.Exception` above (the same
class template under its later name `cet::sqlite::Exception`). -/
def hasTableWithSchema (E : sqlite.errors.ErrorCodes) (query : String → List String)
    (name : String) (expectedSchema : String) : Except sqlite.Exception Bool :=
  let cmd := hasTableWithSchema_cmd name
  let res := query cmd
  if res.isEmpty then .ok false
  else if res.length ≠ 1 then
    .error ⟨E.SQLExecutionError,
      "Problematic query: " ++ toString res.length ++ " instead of 1.\n"⟩
  else
    let retrievedSchema := res.headD ""
    if normalize retrievedSchema = normalize expectedSchema then .ok true
    else
      .error ⟨E.SQLExecutionError,
        "Existing database table name does not match description:\n"
          ++ "   DDL on disk: " ++ normalize retrievedSchema ++ "\n"
          ++ "   Current DDL: " ++ normalize expectedSchema ++ "\n"⟩

/-- The value of `s.substr(pos, n)` for `pos ≤ s.size()`: at most `n`
characters from position `pos` on (`substr` throws only for `pos > s.size()`,
which position `0` never is). -/
def substr (s : String) (pos n : Nat) : String :=
  ⟨(s.data.drop pos).take n⟩

namespace detail

/-- Embedding of `cet::sqlite::detail::assembleURI` (helpers.cc, lines 85-96). -/
def assembleURI (E : sqlite.errors.ErrorCodes) (filename : String) :
    Except sqlite.Exception String :=
  if substr filename 0 5 = "file:" then
    .error ⟨E.OtherError,
      "art does not allow an SQLite database filename that starts with 'file:'.\n"
        ++ "Please contact artists@fnal.gov if you believe this is an error."⟩
  else
    .ok ("file:" ++ filename ++ "?nolock=1")

end detail

/-- The first argument of the call of `sqlite3_open_v2` in
`cet::sqlite::openDatabaseFile` (helpers.cc, lines 106-110): the C string
`uri.c_str()` of the assembled URI. There is no call when `assembleURI`
throws. -/
def openDatabaseFile_uri (E : sqlite.errors.ErrorCodes) (filename : String) :
    Except sqlite.Exception String :=
  match detail.assembleURI E filename with
  | .error e => .error e
  | .ok uri => .ok (c_str uri)

/-- Embedding of `cet::sqlite::openDatabaseFile` (helpers.cc, lines 102-120).
The library call `sqlite3_open_v2(uri.c_str(), &db, flags, nullptr)`, whose
flags are constants, is the parameter `sqlite3_open_v2`: it answers, for the
C string it is handed, the return code and the handle stored in `db`;
`SQLITE_OK` is `0`. The call `sqlite3_close(db)` on the failure path does not
bear on the outcome. -/
def openDatabaseFile {Db : Type} (E : sqlite.errors.ErrorCodes)
    (sqlite3_open_v2 : String → Int × Db) (filename : String) :
    Except sqlite.Exception Db :=
  match detail.assembleURI E filename with
  | .error e => .error e
  | .ok uri =>
    let (rc, db) := sqlite3_open_v2 (c_str uri)
    if rc ≠ 0 then
      .error ⟨E.SQLExecutionError,
        "Failed to open SQLite database\n" ++ "Return code: " ++ toString rc⟩
    else .ok db

end sqlite

/-! ## `cetlib/hard_cast.h` -/

/-- The object representation of an address in `size` bytes, least
significant byte first (any fixed byte order gives the same theorems). -/
def toBytes : Nat → Nat → List Nat
  | 0, _ => []
  | size + 1, a => a % 256 :: toBytes size (a / 256)

/-- The address that an object representation stands for. -/
def ofBytes : List Nat → Nat
  | [] => 0
  | b :: bs => b + 256 * ofBytes bs

/-- The call `memcpy(&dest, &src, n)` on the object representations of
`dest` and `src`: the first `n` bytes of `dest` become the first `n` bytes of
`src`; it is undefined behaviour, `none`, when either object has fewer than
`n` bytes. The result is the new representation of `dest`. -/
def memcpy (dest src : List Nat) (n : Nat) : Option (List Nat) :=
  if n ≤ src.length ∧ n ≤ dest.length then some (src.take n ++ dest.drop n) else none

/-- Embedding of the two-argument `cet::hard_cast(void * src, PTR & dest)`
(hard_cast.h, lines 29-35): `sizeofPTR` is `sizeof(PTR)`, `sizeofVoidP` is
`sizeof(void*)`, `src` is the address held by the `void *` and `dest` the
object representation of the `PTR` before the call; the result is its
representation after the call. -/
def hard_cast (sizeofPTR sizeofVoidP : Nat) (src : Nat) (dest : List Nat) :
    Option (List Nat) :=
  memcpy dest (toBytes sizeofVoidP src) sizeofPTR

/-- Embedding of the one-argument `cet::hard_cast<PTR>(void * src)`
(hard_cast.h, lines 19-27). The local `PTR dest;` is not initialised: its
`sizeof(PTR)` bytes before the call are the parameter `indeterminate`. The
result is the representation of the `PTR` returned. -/
def hard_cast_ret (sizeofPTR sizeofVoidP : Nat) (src : Nat) (indeterminate : List Nat) :
    Option (List Nat) :=
  let dest := indeterminate
  hard_cast sizeofPTR sizeofVoidP src dest

/-! ## `cetlib/bit_manipulation.h` -/

/-- Embedding of `cet::bit_size<U>::value` (bit_manipulation.h, lines 23-27)
for the unsigned type `U` of `w` bits: `std::numeric_limits<U>::digits`. -/
def bit_size (w : Nat) : Nat := w

/-- The width of the type that an operand of the unsigned type of `w` bits
has after integral promotion, `int` having 32 bits. -/
def promoted_bits (w : Nat) : Nat := if w < 32 then 32 else w

/-- Embedding of `cet::circ_lshift(U X, U n)` (bit_manipulation.h, lines
110-122) for the unsigned type `U` of `w` bits, `std::size_t` having 64
bits. In the `return` expression `>>` binds tighter than `&`, so the
expression is `(X << n) | ((X >> (nbits-n)) & mask)`. `X << n` is computed
in the promoted type of `X` (without loss for `w < 32`, modulo `2^w`
otherwise); a right shift by a count that reaches the width of the promoted
type is undefined behaviour, `none`; the value returned is converted to `U`,
that is reduced modulo `2^w`. -/
def circ_lshift (w : Nat) (X n : Nat) : Option Nat :=
  let nbits := bit_size w
  let mask := nbits - 1
  let n := n % nbits
  let shl := if w < 32 then X <<< n else (X <<< n) % 2 ^ w
  if promoted_bits w ≤ nbits - n then none
  else some ((shl ||| ((X >>> (nbits - n)) &&& mask)) % 2 ^ w)

/-- The left rotation of the claim, from its words: with `k = n mod w`, the
value `((X * 2^k) mod 2^w) + floor(X / 2^(w-k))` for `k > 0` and `X` for
`k = 0`. -/
def circ_lshift_spec (w : Nat) (X n : Nat) : Nat :=
  let k := n % w
  if k = 0 then X else (X * 2 ^ k) % 2 ^ w + X / 2 ^ (w - k)

/-! ## The plugin subsystem of the specification -/

namespace plugin

/-- Modelled from the spec: the error categories surfaced to callers (§6);
no source file at hand declares them. `PluginNotFound` carries the
directories searched, `LibraryLoadFailure` the diagnostic string of the
native loader, `SymbolNotFound` the symbol, `ConstructionFailure` the text of
the wrapped exception. -/
inductive PluginError where
  | PluginNotFound (searched : List String)
  | LibraryLoadFailure (diagnostic : String)
  | SymbolNotFound (symbol : String)
  | VersionMismatch
  | ConstructionFailure (context : String)
deriving DecidableEq, Repr

/-- Modelled from the spec: the Library Cache (§3, §4.1), which no source file
at hand defines. `entries` is the mapping from path to handle, oldest entry
first; `loads` records the paths of the native load operations performed so
far, oldest first. -/
structure LibraryCache (Handle : Type) where
  entries : List (String × Handle)
  loads : List String

/-- Modelled from the spec: the cache before any call. -/
def LibraryCache.empty {Handle : Type} : LibraryCache Handle := ⟨[], []⟩

/-- Modelled from the spec: `open(path)` of the Library Cache (§4.1). If
`path` is a key of the cache the handle stored for it is returned, with no
I/O. Otherwise the native load operation is performed (`nativeLoad k path` is
what the `k`-th native load of the process answers for `path`: a handle or
the diagnostic string of the loader); on success `(path, handle)` is
inserted and the handle returned, on failure `LibraryLoadFailure` is
signalled with the diagnostic string. The result is the cache after the call
and what the call returns. -/
def LibraryCache.openPath {Handle : Type} (nativeLoad : Nat → String → Except String Handle)
    (c : LibraryCache Handle) (path : String) :
    LibraryCache Handle × Except PluginError Handle :=
  match c.entries.lookup path with
  | some h => (c, .ok h)
  | none =>
    match nativeLoad c.loads.length path with
    | .ok h => (⟨c.entries ++ [(path, h)], c.loads ++ [path]⟩, .ok h)
    | .error diagnostic =>
      (⟨c.entries, c.loads ++ [path]⟩, .error (.LibraryLoadFailure diagnostic))

/-- The cache after a sequence of `open` calls, one for each path of the
list, in order. -/
def LibraryCache.afterOpens {Handle : Type} (nativeLoad : Nat → String → Except String Handle)
    (c : LibraryCache Handle) (paths : List String) : LibraryCache Handle :=
  paths.foldl (fun c path => (c.openPath nativeLoad path).1) c

/-- The symbols that the Plugin Factory asks the Symbol Resolver for (§6):
the optional release-version symbol and the maker symbol of an interface. -/
inductive Symbol where
  | releaseVersion
  | maker (interface : String)
deriving DecidableEq, Repr

/-- What one call of `make` does to its collaborators, for the record of
the call. -/
inductive Event where
  | search (shortName suffix : String)
  | openLibrary (path : String)
  | resolve (symbol : Symbol)
  | invoke (symbol : Symbol)
deriving DecidableEq, Repr

/-- Modelled from the spec: the collaborators of the Plugin Factory (§2, §4),
none of which is in the sources at hand. `resolvePath` is the Path Resolver
(the path found, or the directories searched); `nativeLoad` the native
loader; `versionSymbol` and `makerSymbol` what the Symbol Resolver finds in
an open library for the release-version symbol and for the maker symbol of
an interface (`none`: symbol not found); a maker answers the instance or the
text of the exception it raises. -/
structure World (Handle Args Instance : Type) where
  resolvePath : String → String → Except (List String) String
  nativeLoad : Nat → String → Except String Handle
  versionSymbol : Handle → Option (Unit → String)
  makerSymbol : Handle → String → Option (Args → Except String Instance)

/-- Modelled from the spec: what a Plugin Factory is constructed with (§4.3,
§4.4): the suffix, the release of the host, the default release string
(empty when unset) and the compatibility policy. -/
structure Factory where
  suffix : String
  currentRelease : String
  defaultRelease : String
  compatible : String → String → Bool

/-- Modelled from the spec: `declaredRelease(handle)` of the Version
Negotiator (§4.3): the value of the exported release-version function if the
library has one, else the configured default string, else `"Unknown"`. This
is `PluginFactory.releaseVersion_` of PluginFactory.cc with the resolved
symbol as the callable. -/
def declaredRelease {Handle Args Instance : Type} (W : World Handle Args Instance)
    (F : Factory) (h : Handle) : String :=
  PluginFactory.releaseVersion_ ⟨W.versionSymbol h, F.defaultRelease⟩

/-- The outcome of one call of `make`: the cache after the call, the record
of the call and what the call returns. -/
structure MakeOutcome (Handle Instance : Type) where
  cache : LibraryCache Handle
  trace : List Event
  result : Except PluginError Instance

/-- The part of the record that the Version Negotiator adds: the look-up of
the release-version symbol and, if it is found, its invocation. -/
def versionEvents {Handle Args Instance : Type} (W : World Handle Args Instance)
    (h : Handle) : List Event :=
  match W.versionSymbol h with
  | some _ => [.resolve .releaseVersion, .invoke .releaseVersion]
  | none => [.resolve .releaseVersion]

/-- Modelled from the spec: `make<Interface>(shortName, constructorArgs...)`
of the Plugin Factory (§4.4), whose definition is not in the sources at hand
(PluginFactory.cc holds the constructors and `releaseVersion_` only). The
steps, in the order of the spec: path resolution (`PluginNotFound`), opening
through the Library Cache (`LibraryLoadFailure` passed on), the version check
(`VersionMismatch`), resolution of the maker symbol (`SymbolNotFound`),
invocation of the maker (`ConstructionFailure`), return of the instance. -/
def make {Handle Args Instance : Type} (W : World Handle Args Instance) (F : Factory)
    (cache : LibraryCache Handle) (interface shortName : String) (args : Args) :
    MakeOutcome Handle Instance :=
  match W.resolvePath shortName F.suffix with
  | .error searched =>
    ⟨cache, [.search shortName F.suffix], .error (.PluginNotFound searched)⟩
  | .ok path =>
    match cache.openPath W.nativeLoad path with
    | (cache1, .error e) =>
      ⟨cache1, [.search shortName F.suffix, .openLibrary path], .error e⟩
    | (cache1, .ok h) =>
      let trace3 := [.search shortName F.suffix, .openLibrary path] ++ versionEvents W h
      if F.compatible F.currentRelease (declaredRelease W F h) = false then
        ⟨cache1, trace3, .error .VersionMismatch⟩
      else
        match W.makerSymbol h interface with
        | none =>
          ⟨cache1, trace3 ++ [.resolve (.maker interface)],
            .error (.SymbolNotFound ("make_" ++ interface))⟩
        | some maker =>
          let trace5 := trace3 ++ [.resolve (.maker interface), .invoke (.maker interface)]
          match maker args with
          | .error what =>
            ⟨cache1, trace5,
              .error (.ConstructionFailure
                ("plugin " ++ shortName ++ ", interface " ++ interface ++ ": " ++ what))⟩
          | .ok instance_ => ⟨cache1, trace5, .ok instance_⟩

/-- A world with one plugin: every short name resolves to a path under
`./plugins`, the native loader answers the number of the load as the handle,
the library exports a release-version function answering `v2` and a maker. -/
def world_v2 : World Nat Unit String where
  resolvePath := fun shortName suffix => .ok ("./plugins/lib" ++ shortName ++ suffix ++ ".so")
  nativeLoad := fun k _ => .ok k
  versionSymbol := fun _ => some (fun _ => "v2")
  makerSymbol := fun _ _ => some (fun _ => .ok "instance")

/-- A factory of release `v1` with the strict-equality policy. -/
def factory_v1 : Factory where
  suffix := "_tool"
  currentRelease := "v1"
  defaultRelease := ""
  compatible := fun current declared => current == declared

end plugin

end cet

/-! # Theorems -/

namespace cet

/-! ## `PluginFactory::releaseVersion_` -/

/-- C1: with no release-version callable configured and an empty configured
release-version string, `releaseVersion_` returns the literal `"Unknown"`. -/
theorem C1_releaseVersion_unknown (pf : PluginFactory)
    (hfunc : pf.releaseVersionFunc_ = none) (hstr : pf.releaseVersionString_ = "") :
    pf.releaseVersion_ = "Unknown" := by
  simp [PluginFactory.releaseVersion_, hfunc, hstr, String.isEmpty_iff]

/-- Witness of C1 at the factory with no callable and the empty string. -/
theorem C1_releaseVersion_unknown_witness :
    (PluginFactory.mk none "").releaseVersion_ = "Unknown" :=
  C1_releaseVersion_unknown ⟨none, ""⟩ rfl rfl

/-- C2: with a release-version callable configured, `releaseVersion_` returns
the value the callable returns, whatever the configured string is and also
when that value is the empty string. -/
theorem C2_releaseVersion_callable (pf : PluginFactory) (func : Unit → String)
    (hfunc : pf.releaseVersionFunc_ = some func) :
    pf.releaseVersion_ = func () := by
  simp [PluginFactory.releaseVersion_, hfunc]

/-- Witness of C2: a callable returning the empty string, next to an empty
and next to a non-empty configured string. -/
theorem C2_releaseVersion_callable_witness :
    (PluginFactory.mk (some fun _ => "") "v1_02").releaseVersion_ = ""
      ∧ (PluginFactory.mk (some fun _ => "") "").releaseVersion_ = ""
      ∧ (PluginFactory.mk (some fun _ => "v3") "v1_02").releaseVersion_ = "v3" :=
  ⟨C2_releaseVersion_callable ⟨some fun _ => "", "v1_02"⟩ (fun _ => "") rfl,
   C2_releaseVersion_callable ⟨some fun _ => "", ""⟩ (fun _ => "") rfl,
   C2_releaseVersion_callable ⟨some fun _ => "v3", "v1_02"⟩ (fun _ => "v3") rfl⟩

/-- C3: with no release-version callable, a non-empty configured string is
returned unchanged, and the result is never the empty string. -/
theorem C3_releaseVersion_string (pf : PluginFactory)
    (hfunc : pf.releaseVersionFunc_ = none) :
    (pf.releaseVersionString_ ≠ "" → pf.releaseVersion_ = pf.releaseVersionString_)
      ∧ pf.releaseVersion_ ≠ "" := by
  by_cases hs : pf.releaseVersionString_ = ""
  · refine ⟨fun h => absurd hs h, ?_⟩
    simp [PluginFactory.releaseVersion_, hfunc, hs, String.isEmpty_iff]
  · simp [PluginFactory.releaseVersion_, hfunc, hs, String.isEmpty_iff]

/-- Witness of C3 at the configured string `"v1_02"`, and at the empty one. -/
theorem C3_releaseVersion_string_witness :
    (PluginFactory.mk none "v1_02").releaseVersion_ = "v1_02"
      ∧ (PluginFactory.mk none "").releaseVersion_ ≠ "" :=
  ⟨(C3_releaseVersion_string ⟨none, "v1_02"⟩ rfl).1 (by decide),
   (C3_releaseVersion_string ⟨none, ""⟩ rfl).2⟩

end cet

namespace sqlite

/-! ## `ExceptionDetail::translate` -/

/-- C4: `translate` throws exactly for the code values that are none of the
four enumerators; the exception then has the category `LogicError` and a
message that starts with
"Internal error: missing string translation for error "; for each of the
four enumerators it returns a string. -/
theorem C4_translate_throws_iff (E : errors.ErrorCodes) (code : Int) :
    ((∃ e, ExceptionDetail.translate E code = .error e) ↔ code ∉ E.defined)
      ∧ ((∃ s, ExceptionDetail.translate E code = .ok s) ↔ code ∈ E.defined)
      ∧ (∀ e, ExceptionDetail.translate E code = .error e →
          e.category = E.LogicError
            ∧ "Internal error: missing string translation for error ".data
                <+: e.message.data) := by
  unfold ExceptionDetail.translate errors.ErrorCodes.defined
  split_ifs with h1 h2 h3 h4 <;> simp [*]

/-- Witness of C4 at the enumeration whose enumerators are 0, 1, 2, 3: the
code value 7 makes `translate` throw, the code value 2 does not. -/
theorem C4_translate_throws_iff_witness :
    (∃ e, ExceptionDetail.translate errors.ErrorCodes.sequential 7 = .error e
        ∧ e.category = 0
        ∧ "Internal error: missing string translation for error ".data
            <+: e.message.data)
      ∧ (∃ s, ExceptionDetail.translate errors.ErrorCodes.sequential 2 = .ok s) := by
  have h7 := C4_translate_throws_iff errors.ErrorCodes.sequential 7
  obtain ⟨e, he⟩ := h7.1.2 (by decide)
  exact ⟨⟨e, he, (h7.2.2 e he).1, (h7.2.2 e he).2⟩,
    (C4_translate_throws_iff errors.ErrorCodes.sequential 2).2.1.2 (by decide)⟩

/-- C5: each enumerator is translated to the string that spells its name,
and on the four enumerators `translate` is injective. -/
theorem C5_translate_names (E : errors.ErrorCodes) (hE : E.Distinct) :
    ExceptionDetail.translate E E.LogicError = .ok "LogicError"
      ∧ ExceptionDetail.translate E E.SQLExecutionError = .ok "SQLExecutionError"
      ∧ ExceptionDetail.translate E E.OtherError = .ok "OtherError"
      ∧ ExceptionDetail.translate E E.Unknown = .ok "Unknown"
      ∧ (∀ c1 ∈ E.defined, ∀ c2 ∈ E.defined,
          ExceptionDetail.translate E c1 = ExceptionDetail.translate E c2 → c1 = c2) := by
  simp only [errors.ErrorCodes.Distinct, List.nodup_cons, List.mem_cons, List.mem_singleton,
    List.not_mem_nil, not_or, List.nodup_nil, or_false, and_true, not_false_eq_true] at hE
  obtain ⟨⟨h12, h13, h14⟩, ⟨h23, h24⟩, h34⟩ := hE
  have t1 : ExceptionDetail.translate E E.LogicError = .ok "LogicError" := by
    simp [ExceptionDetail.translate]
  have t2 : ExceptionDetail.translate E E.SQLExecutionError = .ok "SQLExecutionError" := by
    simp [ExceptionDetail.translate, Ne.symm h12]
  have t3 : ExceptionDetail.translate E E.OtherError = .ok "OtherError" := by
    simp [ExceptionDetail.translate, Ne.symm h13, Ne.symm h23]
  have t4 : ExceptionDetail.translate E E.Unknown = .ok "Unknown" := by
    simp [ExceptionDetail.translate, Ne.symm h14, Ne.symm h24, Ne.symm h34]
  refine ⟨t1, t2, t3, t4, ?_⟩
  intro c1 hc1 c2 hc2 heq
  simp only [errors.ErrorCodes.defined, List.mem_cons, List.mem_singleton, List.not_mem_nil,
    or_false] at hc1 hc2
  rcases hc1 with rfl | rfl | rfl | rfl <;> rcases hc2 with rfl | rfl | rfl | rfl <;>
    first
      | rfl
      | (simp [t1, t2, t3, t4] at heq)

/-- Witness of C5 at the enumeration whose enumerators are 0, 1, 2, 3. -/
theorem C5_translate_names_witness :
    ExceptionDetail.translate errors.ErrorCodes.sequential 0 = .ok "LogicError"
      ∧ ExceptionDetail.translate errors.ErrorCodes.sequential 1 = .ok "SQLExecutionError"
      ∧ ExceptionDetail.translate errors.ErrorCodes.sequential 2 = .ok "OtherError"
      ∧ ExceptionDetail.translate errors.ErrorCodes.sequential 3 = .ok "Unknown" :=
  let h := C5_translate_names errors.ErrorCodes.sequential (by decide)
  ⟨h.1, h.2.1, h.2.2.1, h.2.2.2.1⟩

end sqlite

namespace cet

/-! ## `cet::getenv` -/

/-- A string without an embedded NUL is read whole through `c_str()`. -/
theorem c_str_eq_self (s : String) (h : '\x00' ∉ s.data) : c_str s = s := by
  have : s.data.takeWhile (fun c => c != '\x00') = s.data := by
    rw [List.takeWhile_eq_self_iff]
    intro x hx
    have : x ≠ '\x00' := fun e => h (e ▸ hx)
    simpa using this
  unfold c_str
  rw [this]

/-- C6, the code at the name made of `A`, a NUL and `B`, in an environment
that defines `A` only: the name is not defined, and yet `getenv` does not
throw but returns the value of `A`, the variable that `std::getenv` reads
from `name.c_str()`. -/
theorem C6_getenv_embedded_nul :
    getenv_env_A "A\x00B" = none
      ∧ getenv getenv_env_A "A\x00B" = .ok "1"
      ∧ ¬ ∃ e, getenv getenv_env_A "A\x00B" = .error e := by
  have h : getenv getenv_env_A "A\x00B" = .ok "1" := by rfl
  refine ⟨by decide, h, ?_⟩
  rintro ⟨e, he⟩
  rw [h] at he
  cases he

/-- For a name without an embedded NUL, `getenv` returns what `std::getenv`
answers for the name, and throws, naming it, when that is the null pointer. -/
theorem getenv_of_no_nul (std_getenv : String → Option String) (name : String)
    (hname : '\x00' ∉ name.data) :
    (∀ v, std_getenv name = some v → getenv std_getenv name = .ok v)
      ∧ (std_getenv name = none → getenv std_getenv name
          = .error ⟨"getenv", "Can't find an environment variable named \"" ++ name ++ "\""⟩)
      ∧ ((∃ e, getenv std_getenv name = .error e) ↔ std_getenv name = none) := by
  unfold getenv
  rw [c_str_eq_self name hname]
  cases h : std_getenv name <;> simp

namespace sqlite

/-! ## `cet::sqlite::hasTableWithSchema` -/

/-- C7: with `res` the rows of the `sqlite_master` query, `hasTableWithSchema`
returns false if and only if `res` is empty; for exactly one row `r` it
returns true when `normalize r` equals `normalize expectedSchema` and throws
an exception of category `SQLExecutionError` otherwise; for more than one row
it throws `SQLExecutionError`. So it never returns false when there is a
row. -/
theorem C7_hasTableWithSchema (E : sqlite.errors.ErrorCodes) (query : String → List String)
    (name expectedSchema : String) :
    (hasTableWithSchema E query name expectedSchema = .ok false
        ↔ query (hasTableWithSchema_cmd name) = [])
      ∧ (∀ r, query (hasTableWithSchema_cmd name) = [r] →
          (normalize r = normalize expectedSchema →
            hasTableWithSchema E query name expectedSchema = .ok true)
          ∧ (normalize r ≠ normalize expectedSchema →
            ∃ e, hasTableWithSchema E query name expectedSchema = .error e
              ∧ e.category = E.SQLExecutionError))
      ∧ (1 < (query (hasTableWithSchema_cmd name)).length →
          ∃ e, hasTableWithSchema E query name expectedSchema = .error e
            ∧ e.category = E.SQLExecutionError) := by
  obtain ⟨res, hres⟩ : ∃ res, query (hasTableWithSchema_cmd name) = res := ⟨_, rfl⟩
  simp only [hasTableWithSchema, hres]
  match res with
  | [] => simp
  | [r] =>
    by_cases h : normalize r = normalize expectedSchema <;> simp [h]
  | r1 :: r2 :: rest => simp

/-- Witness of C7: a table whose stored DDL differs from the expected one in
white space only is accepted, one with another column type makes
`hasTableWithSchema` throw, and no row gives false. -/
theorem C7_hasTableWithSchema_witness :
    hasTableWithSchema sqlite.errors.ErrorCodes.sequential
        (fun _ => ["CREATE TABLE t (a  int,\n b text)"]) "t" "CREATE TABLE t (a int, b text)"
        = .ok true
      ∧ (∃ e, hasTableWithSchema sqlite.errors.ErrorCodes.sequential
            (fun _ => ["CREATE TABLE t (a int, b real)"]) "t" "CREATE TABLE t (a int, b text)"
            = .error e ∧ e.category = 1)
      ∧ hasTableWithSchema sqlite.errors.ErrorCodes.sequential
          (fun _ => []) "t" "CREATE TABLE t (a int, b text)" = .ok false :=
  ⟨((C7_hasTableWithSchema sqlite.errors.ErrorCodes.sequential
        (fun _ => ["CREATE TABLE t (a  int,\n b text)"]) "t"
        "CREATE TABLE t (a int, b text)").2.1 _ rfl).1 (by decide),
   ((C7_hasTableWithSchema sqlite.errors.ErrorCodes.sequential
        (fun _ => ["CREATE TABLE t (a int, b real)"]) "t"
        "CREATE TABLE t (a int, b text)").2.1 _ rfl).2 (by decide),
   (C7_hasTableWithSchema sqlite.errors.ErrorCodes.sequential
        (fun _ => []) "t" "CREATE TABLE t (a int, b text)").1.2 rfl⟩

/-! ## `cet::sqlite::detail::assembleURI` and `openDatabaseFile` -/

/-- The test `filename.substr(0,5) == "file:"` holds exactly when the first
five characters of `filename` are `file:`. -/
theorem substr_file_iff (filename : String) :
    substr filename 0 5 = "file:" ↔ "file:".data <+: filename.data := by
  rw [List.prefix_iff_eq_take, String.ext_iff]
  simp only [substr, List.drop_zero]
  have : "file:".data.length = 5 := by decide
  rw [this]
  exact eq_comm

/-- An open call that stores its argument as the handle shows the argument
of the call: it is `openDatabaseFile_uri`. -/
theorem openDatabaseFile_echo (E : sqlite.errors.ErrorCodes) (filename : String) :
    openDatabaseFile E (fun uri => ((0 : Int), uri)) filename
      = openDatabaseFile_uri E filename := by
  unfold openDatabaseFile openDatabaseFile_uri
  cases detail.assembleURI E filename <;> simp

/-- C8, the code at the file name made of `a`, a NUL and `b`: `assembleURI`
returns a string that ends with `?nolock=1`, but the C string `uri.c_str()`
that `openDatabaseFile` hands to `sqlite3_open_v2` is `file:a`, which does
not end with `?nolock=1`. -/
theorem C8_openDatabaseFile_embedded_nul :
    detail.assembleURI sqlite.errors.ErrorCodes.sequential "a\x00b"
        = .ok "file:a\x00b?nolock=1"
      ∧ openDatabaseFile sqlite.errors.ErrorCodes.sequential (fun uri => ((0 : Int), uri))
          "a\x00b" = .ok "file:a"
      ∧ openDatabaseFile_uri sqlite.errors.ErrorCodes.sequential "a\x00b" = .ok "file:a"
      ∧ ¬ "?nolock=1".data <:+ "file:a".data := by
  refine ⟨by rfl, by rfl, by rfl, by decide⟩

/-- The function `assembleURI` throws, with category `OtherError`, if and only
if the first five characters of the file name are `file:`; for every other
file name it returns `"file:" + filename + "?nolock=1"`. -/
theorem assembleURI_throws_iff (E : sqlite.errors.ErrorCodes) (filename : String) :
    ((∃ e, detail.assembleURI E filename = .error e) ↔ "file:".data <+: filename.data)
      ∧ (∀ e, detail.assembleURI E filename = .error e → e.category = E.OtherError)
      ∧ (¬ "file:".data <+: filename.data →
          detail.assembleURI E filename = .ok ("file:" ++ filename ++ "?nolock=1")) := by
  unfold detail.assembleURI
  rw [← substr_file_iff]
  by_cases h : substr filename 0 5 = "file:"
  · simp [h]
  · simp only [h, if_false, false_iff, not_false_eq_true, forall_true_left, true_and]
    refine ⟨?_, ?_, trivial⟩
    · constructor
      · rintro ⟨e, he⟩
        cases he
      · exact False.elim
    · rintro e he
      cases he

end sqlite
end cet

namespace cet

/-! ## `cet::hard_cast` -/

/-- An object representation of `size` bytes made by `toBytes` has `size` bytes. -/
theorem toBytes_length (size : Nat) : ∀ a, (toBytes size a).length = size := by
  induction size with
  | zero => intro a; rfl
  | succ k ih => intro a; simp [toBytes, ih]

/-- An address that fits in `size` bytes is read back from its object
representation. -/
theorem ofBytes_toBytes (size : Nat) : ∀ a, a < 256 ^ size → ofBytes (toBytes size a) = a := by
  induction size with
  | zero =>
    intro a h
    simp only [pow_zero, Nat.lt_one_iff] at h
    simp [toBytes, ofBytes, h]
  | succ k ih =>
    intro a h
    have hk : a / 256 < 256 ^ k := by
      rw [Nat.div_lt_iff_lt_mul (by norm_num)]
      rw [pow_succ] at h
      exact h
    simp only [toBytes, ofBytes, ih _ hk]
    omega

/-- C14: for a pointer type `PTR` of the size of `void*`, the one-argument
`hard_cast<PTR>(src)` returns (whatever the local held before) the value that
the two-argument `hard_cast(src, dest)` stores in `dest` (whatever `dest`
held before); that value has the object representation of `src`, and read
back as an address it is `src`. -/
theorem C14_hard_cast (size src : Nat) (indeterminate dest : List Nat)
    (hsrc : src < 256 ^ size) (hind : indeterminate.length = size)
    (hdest : dest.length = size) :
    hard_cast_ret size size src indeterminate = hard_cast size size src dest
      ∧ hard_cast size size src dest = some (toBytes size src)
      ∧ (hard_cast_ret size size src indeterminate).map ofBytes = some src := by
  have h : ∀ d : List Nat, d.length = size →
      hard_cast size size src d = some (toBytes size src) := by
    intro d hd
    have h1 : (toBytes size src).take size = toBytes size src := by
      rw [List.take_of_length_le]
      rw [toBytes_length]
    have h2 : d.drop size = [] := by
      rw [List.drop_eq_nil_iff]
      omega
    simp [hard_cast, memcpy, toBytes_length, hd, h1, h2]
  refine ⟨?_, h dest hdest, ?_⟩
  · show hard_cast size size src indeterminate = _
    rw [h dest hdest, h indeterminate hind]
  · show (hard_cast size size src indeterminate).map ofBytes = _
    rw [h indeterminate hind, Option.map_some', ofBytes_toBytes size src hsrc]

/-- Witness of C14 for pointers of two bytes: the address `0x1234`, a local
that held `7, 7` and a destination that held `0, 9`. -/
theorem C14_hard_cast_witness :
    hard_cast_ret 2 2 0x1234 [7, 7] = hard_cast 2 2 0x1234 [0, 9]
      ∧ hard_cast 2 2 0x1234 [0, 9] = some [0x34, 0x12]
      ∧ (hard_cast_ret 2 2 0x1234 [7, 7]).map ofBytes = some 0x1234 :=
  C14_hard_cast 2 0x1234 [7, 7] [0, 9] (by decide) rfl rfl

/-! ## `cet::circ_lshift` -/

/-- C15, the code at `U = std::uint8_t`, `X = 0x80`, `n = 4`: `circ_lshift`
returns `0`, all bits of `X` lost, where the left rotation by 4 bits is
`0x08`. The rotated-in bits `X >> (nbits-n)` are masked with
`mask = nbits-1 = 7`, which in `0x08 & 7` leaves nothing. Likewise `0xFF`
rotated by 4 comes out as `0xF7`, and for a type of 32 bits and `n = 0` the
shift `X >> 32` is undefined. -/
theorem C15_circ_lshift_loses_bits :
    circ_lshift 8 0x80 4 = some 0
      ∧ circ_lshift_spec 8 0x80 4 = 0x08
      ∧ circ_lshift 8 0xFF 4 = some 0xF7
      ∧ circ_lshift_spec 8 0xFF 4 = 0xFF
      ∧ circ_lshift 32 1 0 = none := by
  refine ⟨by decide, by decide, by decide, by decide, by decide⟩

end cet

namespace cet
namespace sqlite

/-! ## `normalize` -/

/-- Skipping `n` characters in the loop of `regex_replace` is dropping them. -/
theorem regex_replace_go_skip (m : List Char → Nat) (fmt : List Char) (n : Nat) :
    ∀ cs, regex_replace_go m fmt n cs = regex_replace_go m fmt 0 (cs.drop n) := by
  induction n with
  | zero => intro cs; rfl
  | succ k ih =>
    intro cs
    cases cs with
    | nil => rfl
    | cons c cs => simp only [regex_replace_go, List.drop_succ_cons]; exact ih cs

/-- Dropping as many elements as the longest run satisfying `p` has. -/
theorem drop_length_takeWhile_eq (p : Char → Bool) :
    ∀ l : List Char, l.drop (l.takeWhile p).length = l.dropWhile p := by
  intro l
  induction l with
  | nil => rfl
  | cons c cs ih =>
    by_cases h : p c = true
    · simp [List.takeWhile, List.dropWhile, h, ih]
    · simp [List.takeWhile, List.dropWhile, h]

/-- The first replacement at a white space character: the whole run of white
space becomes one space. -/
theorem spaces_cons_space (c : Char) (cs : List Char) (h : isspace c = true) :
    regex_replace_go matchLen_spaces [' '] 0 (c :: cs)
      = ' ' :: regex_replace_go matchLen_spaces [' '] 0 (cs.dropWhile isspace) := by
  have hm : matchLen_spaces (c :: cs) = (cs.takeWhile isspace).length + 1 := by
    simp [matchLen_spaces, List.takeWhile, h]
  simp only [regex_replace_go, hm]
  rw [regex_replace_go_skip, drop_length_takeWhile_eq]
  rfl

/-- The first replacement at a character that is no white space: it is copied. -/
theorem spaces_cons_other (c : Char) (cs : List Char) (h : isspace c = false) :
    regex_replace_go matchLen_spaces [' '] 0 (c :: cs)
      = c :: regex_replace_go matchLen_spaces [' '] 0 cs := by
  have hm : matchLen_spaces (c :: cs) = 0 := by
    simp [matchLen_spaces, List.takeWhile, h]
  simp only [regex_replace_go, hm]

/-- After the first replacement the output starts with white space only if it
starts with a space that stands for white space at the start of the input;
an input that starts with no white space keeps its first character. -/
theorem spaces_head (l : List Char) (y : Char)
    (hy : y ∈ (regex_replace_go matchLen_spaces [' '] 0 l).head?) :
    (isspace y = false ∧ l.head? = some y) ∨ (∃ c ∈ l.head?, isspace c = true) := by
  cases l with
  | nil => simp [regex_replace_go] at hy
  | cons c cs =>
    by_cases h : isspace c = true
    · exact Or.inr ⟨c, rfl, h⟩
    · have h0 : isspace c = false := by simpa using h
      rw [spaces_cons_other c cs h0] at hy
      simp only [List.head?_cons, Option.mem_def, Option.some.injEq] at hy
      subst hy
      exact Or.inl ⟨h0, rfl⟩

/-- After the first replacement every white space character is a space and
no two spaces are adjacent. -/
theorem spaces_pass (n : Nat) :
    ∀ l : List Char, l.length ≤ n →
      (∀ c ∈ regex_replace_go matchLen_spaces [' '] 0 l, isspace c = true → c = ' ')
        ∧ List.Chain' (fun a b => ¬ (a = ' ' ∧ b = ' '))
            (regex_replace_go matchLen_spaces [' '] 0 l) := by
  induction n with
  | zero =>
    intro l hl
    have : l = [] := List.eq_nil_of_length_eq_zero (Nat.le_zero.mp hl)
    subst this
    simp [regex_replace_go]
  | succ k ih =>
    intro l hl
    cases l with
    | nil => simp [regex_replace_go]
    | cons c cs =>
      have hcs : cs.length ≤ k := by simpa using hl
      by_cases h : isspace c = true
      · have hr : (cs.dropWhile isspace).length ≤ k :=
          Nat.le_trans (List.dropWhile_sublist _).length_le hcs
        obtain ⟨ih1, ih2⟩ := ih (cs.dropWhile isspace) hr
        rw [spaces_cons_space c cs h]
        refine ⟨?_, ?_⟩
        · intro x hx hsp
          rcases List.mem_cons.mp hx with rfl | hx
          · rfl
          · exact ih1 x hx hsp
        · rw [List.chain'_cons']
          refine ⟨?_, ih2⟩
          intro y hy hyy
          rcases spaces_head _ y hy with ⟨hns, _⟩ | ⟨d, hd, hds⟩
          · rw [hyy.2] at hns
            exact absurd hns (by decide)
          · have hnot := List.head?_dropWhile_not isspace cs
            rw [Option.mem_def.mp hd] at hnot
            simp only at hnot
            rw [hnot] at hds
            exact absurd hds (by decide)
      · have h0 : isspace c = false := by simpa using h
        obtain ⟨ih1, ih2⟩ := ih cs hcs
        rw [spaces_cons_other c cs h0]
        refine ⟨?_, ?_⟩
        · intro x hx hsp
          rcases List.mem_cons.mp hx with rfl | hx
          · exact absurd hsp h
          · exact ih1 x hx hsp
        · rw [List.chain'_cons']
          refine ⟨?_, ih2⟩
          intro y _ hyy
          rw [hyy.1] at h0
          exact absurd h0 (by decide)

/-- The expression `", "` matches at the head of a list exactly when the list
starts with a comma and a space. -/
theorem matchLen_comma_space_cases (c : Char) (cs : List Char) :
    (c = ',' ∧ ∃ cs', cs = ' ' :: cs') ∨ matchLen_comma_space (c :: cs) = 0 := by
  unfold matchLen_comma_space
  split
  · rename_i l heq
    simp only [List.cons.injEq] at heq
    exact Or.inl ⟨heq.1, _, heq.2⟩
  · exact Or.inr rfl

/-- The second replacement at a comma followed by a space: the space goes. -/
theorem comma_cons_match (cs : List Char) :
    regex_replace_go matchLen_comma_space [','] 0 (',' :: ' ' :: cs)
      = ',' :: regex_replace_go matchLen_comma_space [','] 0 cs := by
  simp [regex_replace_go, matchLen_comma_space]

/-- The second replacement elsewhere: the character is copied. -/
theorem comma_cons_other (c : Char) (cs : List Char)
    (h : matchLen_comma_space (c :: cs) = 0) :
    regex_replace_go matchLen_comma_space [','] 0 (c :: cs)
      = c :: regex_replace_go matchLen_comma_space [','] 0 cs := by
  simp only [regex_replace_go, h]

/-- The second replacement keeps the first character. -/
theorem comma_head (l : List Char) :
    (regex_replace_go matchLen_comma_space [','] 0 l).head? = l.head? := by
  cases l with
  | nil => rfl
  | cons c cs =>
    rcases matchLen_comma_space_cases c cs with ⟨rfl, cs', rfl⟩ | h
    · rw [comma_cons_match]
      rfl
    · rw [comma_cons_other c cs h]
      rfl

/-- The second replacement brings in no character that the input has not,
and leaves no space after a space or after a comma when the input had no two
adjacent spaces. -/
theorem comma_pass (n : Nat) :
    ∀ l : List Char, l.length ≤ n →
      (∀ x ∈ regex_replace_go matchLen_comma_space [','] 0 l, x ∈ l)
        ∧ (List.Chain' (fun a b => ¬ (a = ' ' ∧ b = ' ')) l →
            List.Chain' (fun a b => ¬ (a = ' ' ∧ b = ' ') ∧ ¬ (a = ',' ∧ b = ' '))
              (regex_replace_go matchLen_comma_space [','] 0 l)) := by
  induction n with
  | zero =>
    intro l hl
    have : l = [] := List.eq_nil_of_length_eq_zero (Nat.le_zero.mp hl)
    subst this
    simp [regex_replace_go]
  | succ k ih =>
    intro l hl
    cases l with
    | nil => simp [regex_replace_go]
    | cons c cs =>
      have hcs : cs.length ≤ k := by simpa using hl
      rcases matchLen_comma_space_cases c cs with ⟨rfl, cs', rfl⟩ | h
      · have hcs' : cs'.length ≤ k := by
          simp only [List.length_cons] at hcs
          omega
        obtain ⟨ih1, ih2⟩ := ih cs' hcs'
        rw [comma_cons_match]
        refine ⟨?_, ?_⟩
        · intro x hx
          rcases List.mem_cons.mp hx with rfl | hx
          · exact List.mem_cons_self _ _
          · exact List.mem_cons_of_mem _ (List.mem_cons_of_mem _ (ih1 x hx))
        · intro hch
          rw [List.chain'_cons', List.chain'_cons'] at hch
          obtain ⟨_, hsp, hrest⟩ := hch
          rw [List.chain'_cons']
          refine ⟨?_, ih2 hrest⟩
          intro y hy
          rw [comma_head] at hy
          have := hsp y hy
          exact ⟨fun hh => this ⟨rfl, hh.2⟩, fun hh => this ⟨rfl, hh.2⟩⟩
      · obtain ⟨ih1, ih2⟩ := ih cs hcs
        rw [comma_cons_other c cs h]
        refine ⟨?_, ?_⟩
        · intro x hx
          rcases List.mem_cons.mp hx with rfl | hx
          · exact List.mem_cons_self _ _
          · exact List.mem_cons_of_mem _ (ih1 x hx)
        · intro hch
          rw [List.chain'_cons'] at hch
          obtain ⟨hhead, hrest⟩ := hch
          rw [List.chain'_cons']
          refine ⟨?_, ih2 hrest⟩
          intro y hy
          rw [comma_head] at hy
          refine ⟨hhead y hy, ?_⟩
          rintro ⟨rfl, rfl⟩
          cases cs with
          | nil => simp at hy
          | cons d ds =>
            simp only [List.head?_cons, Option.mem_def, Option.some.injEq] at hy
            subst hy
            simp [matchLen_comma_space] at h

/-- C13: for every input string, the result of `normalize` holds no white
space character other than the space, no two adjacent spaces, and no comma
followed by a space. -/
theorem C13_normalize (s : String) :
    (∀ c ∈ (normalize s).data, isspace c = true → c = ' ')
      ∧ ¬ [' ', ' '] <:+: (normalize s).data
      ∧ ¬ [',', ' '] <:+: (normalize s).data := by
  obtain ⟨h1, h2⟩ := spaces_pass s.data.length s.data (Nat.le_refl _)
  obtain ⟨h3, h4⟩ := comma_pass _ (regex_replace_go matchLen_spaces [' '] 0 s.data)
    (Nat.le_refl _)
  have hch := h4 h2
  have hdata : (normalize s).data
      = regex_replace_go matchLen_comma_space [',']
          0 (regex_replace_go matchLen_spaces [' '] 0 s.data) := rfl
  rw [hdata]
  refine ⟨fun c hc hsp => h1 c (h3 c hc) hsp, ?_, ?_⟩
  · intro hin
    have := List.chain'_pair.mp <| List.Chain'.infix hch hin
    exact this.1 ⟨rfl, rfl⟩
  · intro hin
    have := List.chain'_pair.mp <| List.Chain'.infix hch hin
    exact this.2 ⟨rfl, rfl⟩

/-- Witness of C13: a DDL with tabs, line ends, runs of spaces and spaces
after commas. -/
theorem C13_normalize_witness :
    normalize "a  int,\t\n b  ,  c, \r d" = "a int,b ,c,d"
      ∧ ¬ [' ', ' '] <:+: (normalize "a  int,\t\n b  ,  c, \r d").data
      ∧ ¬ [',', ' '] <:+: (normalize "a  int,\t\n b  ,  c, \r d").data :=
  ⟨by decide, (C13_normalize "a  int,\t\n b  ,  c, \r d").2.1,
    (C13_normalize "a  int,\t\n b  ,  c, \r d").2.2⟩

end sqlite
end cet

namespace cet
namespace plugin

/-! ## Library Cache -/

/-- Opening a path that is a key of the cache returns the stored handle and
leaves the cache, its record of native loads included, as it is. -/
theorem openPath_hit {Handle : Type} (nativeLoad : Nat → String → Except String Handle)
    (c : LibraryCache Handle) (path : String) (h : Handle)
    (hk : c.entries.lookup path = some h) :
    c.openPath nativeLoad path = (c, .ok h) := by
  simp [LibraryCache.openPath, hk]

/-- The handle that `open` returns is the one stored for the path afterwards. -/
theorem openPath_stored {Handle : Type} (nativeLoad : Nat → String → Except String Handle)
    (c : LibraryCache Handle) (path : String) (h : Handle)
    (hr : (c.openPath nativeLoad path).2 = .ok h) :
    (c.openPath nativeLoad path).1.entries.lookup path = some h := by
  unfold LibraryCache.openPath at hr ⊢
  cases hk : c.entries.lookup path with
  | some h0 =>
    simp only [hk] at hr ⊢
    cases hr
    rfl
  | none =>
    simp only [hk] at hr ⊢
    cases hl : nativeLoad c.loads.length path with
    | error d => simp [hl] at hr
    | ok h1 =>
      simp only [hl] at hr ⊢
      cases hr
      simp [List.lookup_append, hk, List.lookup_cons]

/-- An `open` call keeps the handle stored for any path. -/
theorem openPath_keeps {Handle : Type} (nativeLoad : Nat → String → Except String Handle)
    (c : LibraryCache Handle) (p q : String) (h : Handle)
    (hk : c.entries.lookup p = some h) :
    (c.openPath nativeLoad q).1.entries.lookup p = some h := by
  unfold LibraryCache.openPath
  cases hq : c.entries.lookup q with
  | some h0 => simpa using hk
  | none =>
    cases hl : nativeLoad c.loads.length q with
    | error d => simpa using hk
    | ok h1 => simp [List.lookup_append, hk]

/-- A sequence of `open` calls keeps the handle stored for any path. -/
theorem afterOpens_keeps {Handle : Type} (nativeLoad : Nat → String → Except String Handle)
    (p : String) (h : Handle) (paths : List String) :
    ∀ c : LibraryCache Handle, c.entries.lookup p = some h →
      (c.afterOpens nativeLoad paths).entries.lookup p = some h := by
  induction paths with
  | nil => intro c hk; exact hk
  | cons q qs ih =>
    intro c hk
    exact ih _ (openPath_keeps nativeLoad c p q h hk)

/-- An `open` call keeps the keys of the cache pairwise different. -/
theorem openPath_nodup {Handle : Type} (nativeLoad : Nat → String → Except String Handle)
    (c : LibraryCache Handle) (q : String) (hn : (c.entries.map Prod.fst).Nodup) :
    ((c.openPath nativeLoad q).1.entries.map Prod.fst).Nodup := by
  unfold LibraryCache.openPath
  cases hq : c.entries.lookup q with
  | some h0 => simpa using hn
  | none =>
    cases hl : nativeLoad c.loads.length q with
    | error d => simpa using hn
    | ok h1 =>
      simp only [List.map_append, List.map_cons, List.map_nil]
      rw [List.nodup_append]
      refine ⟨hn, List.nodup_singleton _, ?_⟩
      rw [List.lookup_eq_none_iff] at hq
      intro a ha hb
      rw [List.mem_singleton] at hb
      subst hb
      obtain ⟨e, he, rfl⟩ := List.mem_map.mp ha
      simpa using hq e he

/-- A sequence of `open` calls keeps the keys of the cache pairwise
different. -/
theorem afterOpens_nodup {Handle : Type} (nativeLoad : Nat → String → Except String Handle)
    (paths : List String) :
    ∀ c : LibraryCache Handle, (c.entries.map Prod.fst).Nodup →
      ((c.afterOpens nativeLoad paths).entries.map Prod.fst).Nodup := by
  induction paths with
  | nil => intro c hn; exact hn
  | cons q qs ih =>
    intro c hn
    exact ih _ (openPath_nodup nativeLoad c q hn)

/-- C11: in the cache reached from the empty one by any sequence of `open`
calls, opening a path that is a key returns the handle stored for it and
leaves the cache and its record of native loads unchanged (no native load),
the cache holds at most one handle per path, and a second `open` of a path,
whatever `open` calls come in between, returns the handle that the first
returned. -/
theorem C11_open_cached {Handle : Type} (nativeLoad : Nat → String → Except String Handle)
    (calls : List String) (path : String) :
    (∀ h, (LibraryCache.empty.afterOpens nativeLoad calls).entries.lookup path = some h →
        (LibraryCache.empty.afterOpens nativeLoad calls).openPath nativeLoad path
          = (LibraryCache.empty.afterOpens nativeLoad calls, .ok h))
      ∧ ((LibraryCache.empty.afterOpens nativeLoad calls).entries.map Prod.fst).Nodup
      ∧ (∀ h more,
          ((LibraryCache.empty.afterOpens nativeLoad calls).openPath nativeLoad path).2
            = .ok h →
          ((((LibraryCache.empty.afterOpens nativeLoad calls).openPath nativeLoad path).1
              ).afterOpens nativeLoad more).openPath nativeLoad path
            = ((((LibraryCache.empty.afterOpens nativeLoad calls).openPath nativeLoad path).1
              ).afterOpens nativeLoad more, .ok h)) := by
  refine ⟨fun h hk => openPath_hit nativeLoad _ path h hk, ?_, ?_⟩
  · exact afterOpens_nodup nativeLoad calls _ List.nodup_nil
  · intro h more hr
    apply openPath_hit
    apply afterOpens_keeps
    exact openPath_stored nativeLoad _ path h hr

/-- Witness of C11 with a native loader that answers a new handle at each
load: after the calls for `a`, `b`, `a` two native loads have been made, and
a further `open` of `a` returns the handle `0` of the first load and makes no
load. -/
theorem C11_open_cached_witness :
    (LibraryCache.empty.afterOpens (fun k _ => (.ok k : Except String Nat))
        ["a", "b", "a"]).loads = ["a", "b"]
      ∧ ((LibraryCache.empty.afterOpens (fun k _ => (.ok k : Except String Nat))
          ["a", "b", "a"]).openPath (fun k _ => .ok k) "a")
        = (LibraryCache.empty.afterOpens (fun k _ => (.ok k : Except String Nat))
            ["a", "b", "a"], .ok 0) :=
  ⟨by decide,
   (C11_open_cached (fun k _ => (.ok k : Except String Nat)) ["a", "b", "a"] "a").1 0
    (by decide)⟩

/-! ## Plugin Factory `make` -/

/-- The Version Negotiator neither resolves nor invokes a maker symbol. -/
theorem versionEvents_no_maker {Handle Args Instance : Type} (W : World Handle Args Instance)
    (h : Handle) (interface : String) :
    Event.resolve (.maker interface) ∉ versionEvents W h
      ∧ Event.invoke (.maker interface) ∉ versionEvents W h := by
  unfold versionEvents
  cases W.versionSymbol h <;> simp

/-- C12: when the path of the plugin is found, its library loads (or is in
the cache) with handle `h`, and the compatibility policy reports the pair of
the current and the declared release as incompatible, `make` fails with
`VersionMismatch`, and the record of the call holds neither the resolution
nor the invocation of a maker symbol. -/
theorem C12_make_version_mismatch {Handle Args Instance : Type}
    (W : World Handle Args Instance) (F : Factory) (cache : LibraryCache Handle)
    (interface shortName : String) (args : Args) (path : String) (h : Handle)
    (hpath : W.resolvePath shortName F.suffix = .ok path)
    (hopen : (cache.openPath W.nativeLoad path).2 = .ok h)
    (hpolicy : F.compatible F.currentRelease (declaredRelease W F h) = false) :
    (make W F cache interface shortName args).result = .error .VersionMismatch
      ∧ (∀ i, Event.resolve (.maker i) ∉ (make W F cache interface shortName args).trace)
      ∧ (∀ i, Event.invoke (.maker i) ∉ (make W F cache interface shortName args).trace) := by
  obtain ⟨c1, r, hc⟩ : ∃ c1 r, cache.openPath W.nativeLoad path = (c1, r) := ⟨_, _, rfl⟩
  rw [hc] at hopen
  simp only at hopen
  subst hopen
  have hmake : make W F cache interface shortName args
      = ⟨c1, [.search shortName F.suffix, .openLibrary path] ++ versionEvents W h,
          .error .VersionMismatch⟩ := by
    simp [make, hpath, hc, hpolicy]
  rw [hmake]
  refine ⟨rfl, ?_, ?_⟩
  · intro i hmem
    simp only [List.cons_append, List.nil_append, List.mem_cons] at hmem
    rcases hmem with hcontra | hcontra | hmem
    · cases hcontra
    · cases hcontra
    · exact (versionEvents_no_maker W h i).1 hmem
  · intro i hmem
    simp only [List.cons_append, List.nil_append, List.mem_cons] at hmem
    rcases hmem with hcontra | hcontra | hmem
    · cases hcontra
    · cases hcontra
    · exact (versionEvents_no_maker W h i).2 hmem

/-- Witness of C12: a host of release `v1` with the strict-equality policy
and a plugin that declares `v2`. -/
theorem C12_make_version_mismatch_witness :
    (make world_v2 factory_v1 LibraryCache.empty "ToolInterface" "echo" ()).result
        = .error .VersionMismatch
      ∧ (make world_v2 factory_v1 LibraryCache.empty "ToolInterface" "echo" ()).trace
        = [.search "echo" "_tool", .openLibrary "./plugins/libecho_tool.so",
            .resolve .releaseVersion, .invoke .releaseVersion] :=
  ⟨(C12_make_version_mismatch world_v2 factory_v1 LibraryCache.empty "ToolInterface" "echo" ()
      "./plugins/libecho_tool.so" 0 rfl rfl (by decide)).1,
   by decide⟩

end plugin
end cet
